import Mathlib

set_option maxRecDepth 8000

/-!
Verification of the LanguageServices-WebIDE gateway core against its
specification.  The definitions below are a shallow embedding of the
TypeScript sources `src/languageserver/JavaLanguageServer.ts` and the
`CsharpLanguageServer` translator file; theorems settle the spec claims.

Conventions of the embedding:
* JavaScript strings become `String`; a JS value that may be `null`/
  `undefined` where only its truthiness matters is modelled by `""`
  (strings) or `Option` (objects).
* A thrown JS exception (e.g. a `TypeError` from dereferencing
  `undefined`) is modelled with `Except String`.
* Library callbacks the repository does not define (the backend reply to
  a request, `JSON.parse`, `extractSummaryText`, `offsetAt`) are passed
  in as function parameters, so every theorem quantifies over them.
-/

namespace WebIDE

/-! ## Message framing (JavaLanguageServer.startConversion) -/

/-- Modelled from the spec: the `contentLength` constant of `src/config`
(not included under `src/`); the spec gives the header shape
`Content-Length: <n>\r\n\r\n`. -/
def contentLength : String := "Content-Length: "

/-- Modelled from the spec: the `CRLF` constant of `src/config`
(not included under `src/`). -/
def CRLF : String := "\r\n"

/-- `JavaLanguageServer.startConversion`, lines 69–79: the frame sent to the
client for one decoded backend message.  The input is `jsonrpcData`, the JSON
serialization of the message; `Buffer.byteLength(s, 'utf-8')` is the UTF-8
byte size of the string. -/
def startConversionFrame (jsonrpcData : String) : String :=
  let length := jsonrpcData.utf8ByteSize
  let headers : List String := [contentLength, toString length, CRLF, CRLF]
  String.join headers ++ jsonrpcData

/-! ## Session disposal (JavaLanguageServer.dispose / CsharpLanguageServer.dispose) -/

/-- Modelled from the spec: `LanguageServerManager.dispose(spaceKey)` of the
registry (not included under `src/`): "removes the entry if present; safe to
call when absent (no-op)".  The registry is a map keyed by space key, so
removal deletes the (unique) entry with that key. -/
def registryDispose (spaceKey : String) (registry : List String) : List String :=
  registry.filter (fun k => k ≠ spaceKey)

/-- Externally observable state of one session: the owner's `destroyed` flag,
whether the backend process is alive, and the registry's key set. -/
structure OwnerState where
  destroyed : Bool
  processAlive : Bool
  registry : List String
  deriving DecidableEq, Repr

/-- `JavaLanguageServer.dispose`, lines 82–87: set `destroyed`, remove the
session's registry entry, kill the backend process (a kill signal to an
already dead process leaves it dead). -/
def javaDispose (spaceKey : String) (s : OwnerState) : OwnerState :=
  { destroyed := true
    processAlive := false
    registry := registryDispose spaceKey s.registry }

/-- `CsharpLanguageServer.dispose`, lines 586–591: identical shape (kills
`serverProcess` instead of `process`). -/
def csharpDispose (spaceKey : String) (s : OwnerState) : OwnerState :=
  { destroyed := true
    processAlive := false
    registry := registryDispose spaceKey s.registry }

/-! ## Sequence-number assignment (CsharpLanguageServer._makeRequest) -/

/-- The state `_makeRequest` reads and writes: the `_nextId` counter
(initialised to 1) and whether `this.serverProcess` has been assigned. -/
structure SeqState where
  nextId : Nat
  serverProcessStarted : Bool
  deriving DecidableEq, Repr

/-- `CsharpLanguageServer._makeRequest`, lines 637–651: if `serverProcess`
is unset return `undefined` (no id assigned); otherwise
`const id = this._nextId += 1` assigns the incremented counter. -/
def makeRequestStep (s : SeqState) : Option Nat × SeqState :=
  if s.serverProcessStarted then
    (some (s.nextId + 1), { s with nextId := s.nextId + 1 })
  else
    (none, s)

/-- The sequence of ids assigned by `n` consecutive `_makeRequest` calls
starting from state `s` (calls that return `undefined` assign nothing). -/
def assignedIds (s : SeqState) : Nat → List Nat
  | 0 => []
  | n + 1 =>
    match makeRequestStep s with
    | (none, s1) => assignedIds s1 n
    | (some id, s1) => id :: assignedIds s1 n

/-! ## Completion incompleteness flag (textDocument/completion, line 370) -/

/-- Line 370 of the completion handler:
`lsp.CompletionList.create(result, wordToComplete.length > 1 ? false : true)`
— the `isIncomplete` flag as a function of the filter text. -/
def completionIsIncomplete (wordToComplete : String) : Bool :=
  if wordToComplete.length > 1 then false else true

/-! ## Process-exit handling (CsharpLanguageServer.start / makeRequest) -/

/-- Observable per-session request state: whether `this.serverProcess` has
been assigned (it is never cleared anywhere in the class), and the commands
of the requests currently outstanding in the request queue. -/
structure ProcState where
  serverProcessStarted : Bool
  pendingCommands : List String
  deriving DecidableEq, Repr

/-- The listeners `CsharpLanguageServer.start` (lines 495–517) attaches to
the backend process object: only `'error'` (which merely logs).  The other
listeners attach to different emitters (the readline interface's `'line'`
and `stderr`'s `'data'`); no listener is attached for the process `'exit'`
or stream close events. -/
def startProcessListeners : String → Option (ProcState → ProcState) :=
  fun event => if event = "error" then some (fun s => s) else none

/-- Emitting an event on the backend process object runs the listener
`start` registered for it, if any. -/
def emitProcessEvent (event : String) (s : ProcState) : ProcState :=
  match startProcessListeners event with
  | some handler => handler s
  | none => s

/-- Result of `CsharpLanguageServer.makeRequest` as observable to the
caller: a rejected promise, or a request enqueued on the queue. -/
inductive MakeRequestOutcome where
  | rejected (msg : String)
  | enqueued
  deriving DecidableEq, Repr

/-- `CsharpLanguageServer.makeRequest`, lines 593–619: reject when
`this.serverProcess` is unset, otherwise enqueue the request. -/
def makeRequest (s : ProcState) (command : String) : ProcState × MakeRequestOutcome :=
  if s.serverProcessStarted then
    ({ s with pendingCommands := s.pendingCommands ++ [command] }, .enqueued)
  else
    (s, .rejected "server has been stopped or not started.")

/-! ## Line-protocol decoding (CsharpLanguageServer.lineReceived) -/

/-- A JSON value, as produced by `JSON.parse`. -/
inductive Json where
  | null
  | bool (b : Bool)
  | num (n : Int)
  | str (s : String)
  | arr (elems : List Json)
  | obj (fields : List (String × Json))

/-- JS property access `packet.<key>`: a field of an object, `undefined`
(here `none`) otherwise. -/
def Json.getField : Json → String → Option Json
  | .obj fields, key => (fields.find? (fun f => f.1 = key)).map (fun f => f.2)
  | _, _ => none

/-- JS truthiness of a JSON value (`undefined`/`null`, `false`, `0` and
`''` are falsy; objects and arrays are truthy). -/
def Json.truthy : Json → Bool
  | .null => false
  | .bool b => b
  | .num n => n ≠ 0
  | .str s => s ≠ ""
  | .arr _ => true
  | .obj _ => true

/-- Modelled from the spec: `removeBOMFromString` of `src/utils/removeBOM`
(not included under `src/`), a wrapper over `strip-bom`: it drops one
leading U+FEFF byte-order mark. -/
def removeBOMFromString (s : String) : String :=
  if s.data.head? = some '\uFEFF' then String.mk s.data.tail else s

/-- What `lineReceived` does with one stdout line: hand a packet to
`_handleResponsePacket`, hand it to `_handleEventPacket`, or ignore the
line (the early returns and the logging-only `default` branch). -/
inductive LineAction where
  | response (packet : Json)
  | event (packet : Json)
  | ignored

/-- `CsharpLanguageServer.lineReceived`, lines 520–549.  `jsonParse` stands
for `JSON.parse` (`none` models a thrown parse error). -/
def lineReceived (jsonParse : String → Option Json) (lineString : String) : LineAction :=
  let line := removeBOMFromString lineString
  if ¬ (line.data.head? = some '\x7b') then .ignored
  else
    match jsonParse line with
    | none => .ignored
    | some packet =>
      match packet.getField "Type" with
      | none => .ignored
      | some t =>
        if ¬ t.truthy then .ignored
        else
          match t with
          | .str typeName =>
            if typeName = "response" then .response packet
            else if typeName = "event" then .event packet
            else .ignored
          | _ => .ignored

/-- Whether the line was processed as a protocol message (dispatched to a
response/event handler) rather than discarded. -/
def LineAction.handled : LineAction → Bool
  | .ignored => false
  | _ => true

/-- Effect of one stdout line on session state `σ`, given the state effects
of the two packet handlers: a discarded line leaves the state untouched. -/
def lineStep {σ : Type} (jsonParse : String → Option Json)
    (onResponsePacket onEventPacket : Json → σ → σ)
    (lineString : String) (s : σ) : σ :=
  match lineReceived jsonParse lineString with
  | .response packet => onResponsePacket packet s
  | .event packet => onEventPacket packet s
  | .ignored => s

/-! ## Text documents and positions (vscode-languageserver library model) -/

/-- An LSP position (zero-based line / character). -/
structure Position where
  line : Nat
  character : Nat
  deriving DecidableEq, Repr

/-- An LSP range. -/
structure Range where
  start : Position
  stop : Position
  deriving DecidableEq, Repr

/-- `lsp.TextDocument.getText(range)`: the substring of the document text
between the offsets of the range ends, `text.substring(offsetAt(start),
offsetAt(stop))`.  The library's position-to-offset conversion is passed in
as `offsetAt`; JS `substring` swaps its arguments when they are out of
order. -/
def documentGetText (offsetAt : String → Position → Nat) (text : String) (r : Range) : String :=
  let a := offsetAt text r.start
  let b := offsetAt text r.stop
  String.mk ((text.toList.drop (min a b)).take (max a b - min a b))

/-- JS `x || ''` on a string. -/
def jsOrEmpty (s : String) : String :=
  if s = "" then "" else s

/-- One entry of `openedDocumentUris`: an `lsp.TextDocument`. -/
structure TextDocument where
  uri : String
  languageId : String
  version : Nat
  text : String
  deriving DecidableEq, Repr

/-- `Map.get` on `openedDocumentUris` (`undefined` when the uri was never
opened). -/
def getOpenedDocument (docs : List (String × TextDocument)) (uri : String) :
    Option TextDocument :=
  (docs.find? (fun d => d.1 = uri)).map (fun d => d.2)

/-! ## Completion translation (textDocument/completion handler) -/

/-- The commit-character list used for suggestion-mode items (part_002
lines 67–70). -/
def commitCharactersWithoutSpace : List Char :=
  ['\x7b', '\x7d', '[', ']', '(', ')', '.', ',', ':',
   ';', '+', '-', '*', '/', '%', '&', '|', '^', '!',
   '~', '=', '<', '>', '?', '@', '#', '\u0027', '\"', '\\']

/-- The full commit-character list (part_002 lines 72–75). -/
def allCommitCharacters : List Char :=
  [' ', '\x7b', '\x7d', '[', ']', '(', ')', '.', ',', ':',
   ';', '+', '-', '*', '/', '%', '&', '|', '^', '!',
   '~', '=', '<', '>', '?', '@', '#', '\u0027', '\"', '\\']

/-- The `_kinds` table (part_002 lines 77–103) with the numeric values of
`lsp.CompletionItemKind`, and the `|| lsp.CompletionItemKind.Property`
default of line 329 (Property = 10). -/
def kindsLookup (kind : String) : Nat :=
  if kind = "Class" then 7            -- Class
  else if kind = "Delegate" then 7    -- Class
  else if kind = "Enum" then 13       -- Enum
  else if kind = "Interface" then 8   -- Interface
  else if kind = "Struct" then 22     -- Struct
  else if kind = "Local" then 6       -- Variable
  else if kind = "Parameter" then 6   -- Variable
  else if kind = "RangeVariable" then 6 -- Variable
  else if kind = "Const" then 21      -- Constant
  else if kind = "EnumMember" then 20 -- EnumMember
  else if kind = "Event" then 23      -- Event
  else if kind = "Field" then 5       -- Field
  else if kind = "Method" then 2      -- Method
  else if kind = "Property" then 10   -- Property
  else if kind = "Label" then 11      -- Unit
  else if kind = "Keyword" then 14    -- Keyword
  else if kind = "Namespace" then 9   -- Module
  else 10                             -- default: Property

/-- JS `completionText.replace(/<>/g, '')`: remove every (non-overlapping,
left-to-right) occurrence of the two-character marker `<>`. -/
def removeAngleMarkers : List Char → List Char
  | [] => []
  | '<' :: '>' :: rest => removeAngleMarkers rest
  | ch :: rest => ch :: removeAngleMarkers rest

/-- One raw candidate of the backend's AutoComplete response.  A `null` or
absent `ReturnType` is modelled as `""` (both are falsy in the source's
`response.ReturnType ? … : …` test). -/
structure AutoCompleteResponse where
  CompletionText : String
  DisplayText : String
  ReturnType : String
  Description : String
  Kind : String
  IsSuggestionMode : Bool
  Preselect : Bool
  deriving DecidableEq, Repr

/-- An `lsp.CompletionItem` with the fields the handler sets. -/
structure CompletionItem where
  label : String
  detail : String
  documentation : String
  kind : Nat
  insertText : String
  commitCharacters : List Char
  preselect : Bool
  deriving DecidableEq, Repr

/-- Lines 322–336 of the completion handler: build one `CompletionItem`
from one raw candidate.  `est` stands for the imported helper
`extractSummaryText` (its source is outside this repository). -/
def toCompletionItem (est : String → String) (response : AutoCompleteResponse) :
    CompletionItem :=
  { label := response.CompletionText
    detail :=
      if response.ReturnType = "" then response.DisplayText
      else response.ReturnType ++ " " ++ response.DisplayText
    documentation := est response.Description
    kind := kindsLookup response.Kind
    insertText := String.mk (removeAngleMarkers response.CompletionText.data)
    commitCharacters :=
      if response.IsSuggestionMode then commitCharactersWithoutSpace
      else allCommitCharacters
    preselect := response.Preselect }

/-- One value of the `completions` object: the grouped items (in push
order) and the group's accumulated preselect flag. -/
structure CompletionGroup where
  items : List CompletionItem
  preselect : Bool
  deriving DecidableEq, Repr

/-- Lines 338–345: insert one built item into the `completions` object
(a string-keyed map in insertion order): a fresh label appends a singleton
group, an existing label pushes the item and ORs the preselect flag. -/
def addCompletion : List (String × CompletionGroup) → CompletionItem →
    List (String × CompletionGroup)
  | [], c => [(c.label, ⟨[c], c.preselect⟩)]
  | (l, g) :: rest, c =>
    if l = c.label then
      (l, ⟨g.items ++ [c], g.preselect || c.preselect⟩) :: rest
    else
      (l, g) :: addCompletion rest c

/-- The grouping loop of lines 321–346 over the whole candidate list. -/
def buildCompletions (items : List CompletionItem) : List (String × CompletionGroup) :=
  items.foldl addCompletion []

/-- Lines 349–366, body of the per-group loop: `suggestion = items[0]`,
`overloadCount = items.length - 1`; an overloaded group's suggestion gets
the overload suffix on its detail and the group's preselect flag.  (The
`[]` case is unreachable: `addCompletion` never builds an empty group.) -/
def selectSuggestion (g : CompletionGroup) : CompletionItem :=
  match g.items with
  | [] => ⟨"", "", "", 0, "", [], false⟩
  | suggestion :: rest =>
    if rest.length = 0 then suggestion
    else
      { suggestion with
        detail := suggestion.detail ++ " (+ " ++ toString rest.length ++ " overload(s))"
        preselect := g.preselect }

/-- Lines 317–366: the full translation of the backend's raw candidate
list into the result item list. -/
def completionGrouping (est : String → String) (responses : List AutoCompleteResponse) :
    List CompletionItem :=
  (buildCompletions (responses.map (toCompletionItem est))).map
    (fun entry => selectSuggestion entry.2)

/-- The labels of a list of items, first occurrence of each label only,
in first-occurrence order (the iteration order of the `completions`
object's keys). -/
def firstLabels : List CompletionItem → List String
  | [] => []
  | c :: cs => c.label :: (firstLabels cs).filter (fun l => l ≠ c.label)

/-- Restatement of the grouping clause of the claim, following the spec's
words: the single item produced for one label's candidate group — a lone
candidate stands alone; `n + 1` candidates collapse to the first one,
its detail suffixed with `"(+ n overload(s))"` and its preselect flag the
disjunction over the group. -/
def groupedItemSpec (group : List CompletionItem) : CompletionItem :=
  match group with
  | [] => ⟨"", "", "", 0, "", [], false⟩
  | suggestion :: rest =>
    if rest = [] then suggestion
    else
      { suggestion with
        detail := suggestion.detail ++ " (+ " ++ toString rest.length ++ " overload(s))"
        preselect := (suggestion :: rest).any (fun c => c.preselect) }

/-- Restatement of the whole grouping claim, following the spec's words:
group the built items by label and emit one `groupedItemSpec` item per
distinct label, in first-occurrence order. -/
def completionGroupingSpec (est : String → String)
    (responses : List AutoCompleteResponse) : List CompletionItem :=
  let items := responses.map (toCompletionItem est)
  (firstLabels items).map (fun l => groupedItemSpec (items.filter (fun c => c.label = l)))

/-- The closed form of the `completions` object after the grouping loop:
one entry per distinct label in first-occurrence order, holding the items
with that label (in arrival order) and their disjoined preselect flag. -/
def canonicalGroups (items : List CompletionItem) : List (String × CompletionGroup) :=
  (firstLabels items).map (fun l =>
    (l, ⟨items.filter (fun c => c.label = l),
         (items.filter (fun c => c.label = l)).any (fun c => c.preselect)⟩))

/-- Lines 294–297 of the completion handler: the filter text.
`wordToComplete = lspDocument.getText(Range.create(pos, pos)) || ''`. -/
def completionWordToComplete (offsetAt : String → Position → Nat)
    (text : String) (position : Position) : String :=
  let lspPosition := position
  let range : Range := ⟨lspPosition, lspPosition⟩
  jsOrEmpty (documentGetText offsetAt text range)

/-- The value the completion handler resolves with: the `return []` of
line 314 (a bare array, no incompleteness flag), or the
`lsp.CompletionList.create(result, …)` of line 370. -/
inductive CompletionReply where
  | bareItems (items : List CompletionItem)
  | list (items : List CompletionItem) (isIncomplete : Bool)
  deriving DecidableEq, Repr

/-! ## URIs (vscode-uri library model) and createRequest -/

/-- A parsed URI, reduced to what the translator uses: the scheme and the
remainder (`authority ++ path`) after the `://` separator. -/
structure Uri where
  scheme : String
  body : String
  deriving DecidableEq, Repr

/-- `vscodeUri.parse`: split at the first `://`. -/
def parseUri (s : String) : Uri :=
  match s.splitOn "://" with
  | [] => ⟨"", ""⟩
  | [whole] => ⟨"", whole⟩
  | scheme :: rest => ⟨scheme, String.intercalate "://" rest⟩

/-- `Uri.toString()`. -/
def Uri.toUriString (u : Uri) : String :=
  u.scheme ++ "://" ++ u.body

/-- The authority component: the body up to the first `/`. -/
def Uri.authority (u : Uri) : String :=
  (u.body.splitOn "/").headD ""

/-- The path component: the body from the first `/` on. -/
def Uri.path (u : Uri) : String :=
  match u.body.splitOn "/" with
  | [] => ""
  | [_] => ""
  | _ :: rest => "/" ++ String.intercalate "/" rest

/-- `Uri.fsPath` as the translator consumes it: the path component (drive
normalisation is irrelevant to the schemes used here). -/
def Uri.fsPath (u : Uri) : String :=
  u.path

/-- JS `String.prototype.replace` with a plain (non-regex) pattern and an
empty replacement: remove the first occurrence only. -/
def removeFirst (s pat : String) : String :=
  match s.splitOn pat with
  | [] => s
  | [whole] => whole
  | piece :: rest => piece ++ String.intercalate pat rest

/-- The backend request shape built by `createRequest` (part_002 lines
29–48), called with an LSP position: `Line`/`Column` from the position, an
optional full buffer, and a `FileName` recovered from the document URI
(undoing the `[metadata] ` marker for virtual documents). -/
structure BackendRequest where
  Line : Nat
  Column : Nat
  Buffer : Option String
  FileName : String
  deriving DecidableEq, Repr

/-- `createRequest(document, position, includeBuffer)` for a plain position
argument (no `start`/`end` fields). -/
def createRequest (document : TextDocument) (position : Position)
    (includeBuffer : Bool) : BackendRequest :=
  let fileUri := parseUri document.uri
  let uriFileName := fileUri.fsPath
  let fileName :=
    if fileUri.scheme = "omnisharp-metadata" then
      fileUri.authority ++ removeFirst uriFileName "[metadata] "
    else uriFileName
  { Line := position.line
    Column := position.character
    Buffer := if includeBuffer then some document.text else none
    FileName := fileName }

/-- Lines 288–371: the completion handler.  `autoComplete` stands for the
awaited backend round trip (`this.makeRequest(requests.AutoComplete, …)`,
with `none` modelling a `null`/`undefined` response); dereferencing a
document that was never opened throws a `TypeError`.  (The
`context.triggerKind` branch of lines 309–311 mutates the already-copied
`req` object and never reaches the sent request, so it is omitted.) -/
def completionHandler (offsetAt : String → Position → Nat) (est : String → String)
    (autoComplete : BackendRequest × String → Option (List AutoCompleteResponse))
    (docs : List (String × TextDocument)) (uri : String) (position : Position) :
    Except String CompletionReply :=
  match getOpenedDocument docs uri with
  | none => .error "TypeError: Cannot read property of undefined"
  | some lspDocument =>
    let wordToComplete := completionWordToComplete offsetAt lspDocument.text position
    let req := createRequest lspDocument position false
    match autoComplete (req, wordToComplete) with
    | none => .ok (.bareItems [])
    | some responses =>
      .ok (.list (completionGrouping est responses) (completionIsIncomplete wordToComplete))

/-! ## Hover translation (textDocument/hover handler, lines 265–286) -/

/-- The backend's TypeLookup reply (`IHoverResult`); `Type` is a reserved
word in Lean, hence the guillemets. -/
structure HoverResult where
  Documentation : String
  «Type» : String
  StructuredDocumentation : String
  deriving DecidableEq, Repr

/-- The `lsp.Hover` the handler resolves with: `contents` is the pair of
the documentation string and the `csharp`-language marked `Type` string. -/
structure Hover where
  documentation : String
  typeValue : String
  deriving DecidableEq, Repr

/-- Lines 265–286: the hover handler.  `gds` stands for the imported
helper `getDocumentationString`; `typeLookup` for the awaited backend
round trip; `.ok none` is the handler falling through (resolving with
`undefined`) when the backend reports no type. -/
def hoverHandler (gds : String → String)
    (typeLookup : BackendRequest → Option HoverResult)
    (docs : List (String × TextDocument)) (uri : String) (position : Position) :
    Except String (Option Hover) :=
  match getOpenedDocument docs uri with
  | none => .error "TypeError: Cannot read property of undefined"
  | some lspDocument =>
    let request : BackendRequest :=
      { Line := position.line
        Column := position.character
        Buffer := some lspDocument.text
        FileName := uri }
    match typeLookup request with
    | none => .ok none
    | some result =>
      if result.«Type» ≠ "" then
        .ok (some ⟨gds result.StructuredDocumentation, result.«Type»⟩)
      else .ok none

/-! ## Go-to-definition translation (textDocument/definition, lines 411–447) -/

/-- An `lsp.Location`. -/
structure Location where
  uri : String
  range : Range
  deriving DecidableEq, Repr

/-- `toLocationFromUri` (part_002 lines 55–65): a range down to the
optional `EndLine`/`EndColumn`, else a zero-width range. -/
def toLocationFromUri (uri : String) (ln col : Nat)
    (endLine endColumn : Option Nat) : Location :=
  let position : Position := ⟨ln, col⟩
  match endLine, endColumn with
  | some el, some ec => ⟨uri, ⟨position, ⟨el, ec⟩⟩⟩
  | _, _ => ⟨uri, ⟨position, position⟩⟩

/-- The second regex of `createUri`, `(.*)\/(.*)` (greedy): when the
string has a `/`, insert `[metadata] ` after the last one. -/
def insertMetadataTag (s : String) : String :=
  let parts := s.splitOn "/"
  if parts.length ≤ 1 then s
  else
    String.intercalate "/" parts.dropLast ++ "/[metadata] " ++ (parts.getLast?.getD "")

/-- `createUri` (part_002 lines 50–53): strip every backslash, mark the
last path segment, and parse as an `omnisharp-metadata` URI (parsing
`"omnisharp-metadata://" ++ body` yields exactly that scheme and body,
since the scheme contains no `:`). -/
def createUri (sourceName : String) : Uri :=
  ⟨"omnisharp-metadata",
    insertMetadataTag (String.mk (sourceName.data.filter (fun ch => ch ≠ '\\')))⟩

/-- The `MetadataSource` of a GoToDefinition reply. -/
structure MetadataSource where
  AssemblyName : String
  VersionNumber : String
  ProjectName : String
  Language : String
  TypeName : String
  deriving DecidableEq, Repr

/-- The follow-up Metadata request built on lines 429–436. -/
structure MetadataRequest where
  Timeout : Nat
  AssemblyName : String
  VersionNumber : String
  ProjectName : String
  Language : String
  TypeName : String
  deriving DecidableEq, Repr

/-- The backend's Metadata reply; `""` models an absent/falsy field. -/
structure MetadataResponse where
  SourceName : String
  Source : String
  deriving DecidableEq, Repr

/-- The backend's GoToDefinition reply; `FileName = ""` models an
absent/falsy file name. -/
structure GoToDefinitionResponse where
  FileName : String
  MetadataSource : Option MetadataSource
  Line : Nat
  Column : Nat
  EndLine : Option Nat
  EndColumn : Option Nat
  deriving DecidableEq, Repr

/-- The follow-up Metadata request of lines 429–436, built from the
reply's `MetadataSource` with the fixed 5000 ms timeout. -/
def metadataRequestOf (metadataSource : MetadataSource) : MetadataRequest :=
  { Timeout := 5000
    AssemblyName := metadataSource.AssemblyName
    VersionNumber := metadataSource.VersionNumber
    ProjectName := metadataSource.ProjectName
    Language := metadataSource.Language
    TypeName := metadataSource.TypeName }

/-- Lines 419–446: what the definition handler does with the backend's
reply.  `metadataLookup` stands for the awaited follow-up
`makeRequest(requests.Metadata, …)` round trip; `.ok none` is the handler
returning `undefined`.  A `null` reply faults on line 427
(`result.MetadataSource` dereferences `null`). -/
def definitionOnResult (metadataLookup : MetadataRequest → Option MetadataResponse)
    (result : Option GoToDefinitionResponse) : Except String (Option Location) :=
  match result with
  | none => .error "TypeError: Cannot read property of null"
  | some r =>
    if r.FileName ≠ "" then
      if r.FileName.startsWith "$metadata$" then
        .ok (some (toLocationFromUri (createUri r.FileName).toUriString
          r.Line r.Column r.EndLine r.EndColumn))
      else
        .ok (some (toLocationFromUri (Uri.mk "file" r.FileName).toUriString
          r.Line r.Column r.EndLine r.EndColumn))
    else
      match r.MetadataSource with
      | some metadataSource =>
        match metadataLookup (metadataRequestOf metadataSource) with
        | none => .ok none
        | some metadataResponse =>
          if metadataResponse.Source = "" ∨ metadataResponse.SourceName = "" then
            .ok none
          else
            let position : Position := ⟨r.Line, r.Column⟩
            .ok (some ⟨(createUri metadataResponse.SourceName).toUriString,
              ⟨position, position⟩⟩)
      | none => .ok none

/-- Lines 411–447: the full definition handler (document lookup, request
construction with `WantMetadata: true`, then `definitionOnResult`). -/
def definitionHandler (metadataLookup : MetadataRequest → Option MetadataResponse)
    (goToDefinition : BackendRequest → Option GoToDefinitionResponse)
    (docs : List (String × TextDocument)) (uri : String) (position : Position) :
    Except String (Option Location) :=
  match getOpenedDocument docs uri with
  | none => .error "TypeError: Cannot read property of undefined"
  | some lspDocument =>
    let request := createRequest lspDocument position false
    definitionOnResult metadataLookup (goToDefinition request)

/-! ## Theorems -/

theorem registryDispose_idem (spaceKey : String) (registry : List String) :
    registryDispose spaceKey (registryDispose spaceKey registry) =
      registryDispose spaceKey registry := by
  simp [registryDispose, List.filter_filter]

theorem iterate_eq_of_idem {α : Type} (f : α → α) (hf : ∀ s, f (f s) = f s) :
    ∀ n, 1 ≤ n → ∀ s, f^[n] s = f s := by
  intro n hn
  induction n with
  | zero => omega
  | succ m ih =>
    intro s
    match m, ih with
    | 0, _ => rfl
    | m + 1, ih =>
      rw [Function.iterate_succ_apply, ih (by omega) (f s), hf]

/-- C1: disposal of a session's language-server owner is idempotent — for
either backend family, calling `dispose` `n ≥ 1` times leaves exactly the
state of calling it once: the process is dead, the `destroyed` flag set,
and the session's registry entry removed (once). -/
theorem dispose_idempotent (spaceKey : String) (s : OwnerState) (n : Nat) (hn : 1 ≤ n) :
    (javaDispose spaceKey)^[n] s = javaDispose spaceKey s ∧
    (csharpDispose spaceKey)^[n] s = csharpDispose spaceKey s := by
  constructor
  · exact iterate_eq_of_idem _ (fun t => by simp [javaDispose, registryDispose_idem]) n hn s
  · exact iterate_eq_of_idem _ (fun t => by simp [csharpDispose, registryDispose_idem]) n hn s

/-- Witness for C1 at a concrete session state and `n = 3`. -/
theorem dispose_idempotent_witness :
    (javaDispose "s1")^[3] ⟨false, true, ["s1", "s2"]⟩ =
      javaDispose "s1" ⟨false, true, ["s1", "s2"]⟩ ∧
    (csharpDispose "s1")^[3] ⟨false, true, ["s1", "s2"]⟩ =
      csharpDispose "s1" ⟨false, true, ["s1", "s2"]⟩ :=
  dispose_idempotent "s1" ⟨false, true, ["s1", "s2"]⟩ 3 (by decide)

/-- C2 (code bug): when the backend process exits while a request is still
pending, nothing fails that request and nothing stops further enqueues —
`start` registers no listener for the exit event and `serverProcess` is
never cleared, so the exit leaves the session state untouched and a later
`makeRequest` still enqueues instead of rejecting. -/
theorem exit_leaves_pending_and_enqueues :
    emitProcessEvent "exit" ⟨true, ["typelookup"]⟩ = ⟨true, ["typelookup"]⟩ ∧
    (makeRequest (emitProcessEvent "exit" ⟨true, ["typelookup"]⟩) "projects").2 =
      .enqueued ∧
    (makeRequest (emitProcessEvent "exit" ⟨true, ["typelookup"]⟩)
        "projects").1.pendingCommands = ["typelookup", "projects"] := by
  refine ⟨rfl, rfl, rfl⟩

/-- C3: the completion list is marked incomplete exactly when the filter
text is 0 or 1 characters long; a 2-character filter text yields a list
marked complete. -/
theorem completion_incomplete_iff_short (w : String) :
    (completionIsIncomplete w = true ↔ w.length = 0 ∨ w.length = 1) ∧
    (w.length = 2 → completionIsIncomplete w = false) := by
  constructor
  · unfold completionIsIncomplete
    split <;> rename_i h <;> simp <;> omega
  · intro h
    simp [completionIsIncomplete, h]

/-- Witness for C3 at filter texts of length 2 and 0. -/
theorem completion_incomplete_iff_short_witness :
    completionIsIncomplete "ab" = false ∧ completionIsIncomplete "" = true :=
  ⟨(completion_incomplete_iff_short "ab").2 rfl,
   (completion_incomplete_iff_short "").1.mpr (Or.inl rfl)⟩

/-- C6 (code bug): a position-based request for a document that was never
opened does not produce a protocol error response from the handler — the
handler faults internally, dereferencing the `undefined` result of the
`openedDocumentUris` lookup (hover line 273, completion line 297,
definition line 417 via `createRequest`). -/
theorem missing_document_faults :
    hoverHandler (fun d => d) (fun _ => none) [] "file:///home/p/a.cs" ⟨3, 5⟩ =
      .error "TypeError: Cannot read property of undefined" ∧
    completionHandler (fun _ _ => 0) (fun d => d) (fun _ => none) []
        "file:///home/p/a.cs" ⟨3, 5⟩ =
      .error "TypeError: Cannot read property of undefined" ∧
    definitionHandler (fun _ => none) (fun _ => none) [] "file:///home/p/a.cs" ⟨3, 5⟩ =
      .error "TypeError: Cannot read property of undefined" := by
  refine ⟨rfl, rfl, rfl⟩

theorem assignedIds_lt (n : Nat) : ∀ (s : SeqState), ∀ id ∈ assignedIds s n, s.nextId < id := by
  induction n with
  | zero => intro s id h; simp [assignedIds] at h
  | succ m ih =>
    intro s id h
    unfold assignedIds makeRequestStep at h
    by_cases hs : s.serverProcessStarted
    · simp [hs] at h
      rcases h with h | h
      · omega
      · have := ih _ id h
        simp at this
        omega
    · simp [hs] at h
      exact ih _ id h

/-- C9: the sequence numbers `_makeRequest` assigns over any run of calls
are strictly increasing in assignment order, hence pairwise distinct —
a number once assigned is never reused for that process. -/
theorem assignedIds_strict_mono (s : SeqState) (n : Nat) :
    (assignedIds s n).Pairwise (· < ·) ∧ (assignedIds s n).Nodup := by
  have main : ∀ m, ∀ (t : SeqState), (assignedIds t m).Pairwise (· < ·) := by
    intro m
    induction m with
    | zero => intro t; simp [assignedIds]
    | succ k ih =>
      intro t
      unfold assignedIds makeRequestStep
      by_cases ht : t.serverProcessStarted
      · simp [ht]
        refine ⟨?_, ih _⟩
        intro b hb
        have := assignedIds_lt k _ b hb
        simp at this
        omega
      · simp [ht]
        exact ih _
  refine ⟨main n s, List.Pairwise.imp (fun h => Nat.ne_of_lt h) (main n s)⟩

/-- C7: every frame relayed to the client is
`Content-Length: <n>` + CRLF + CRLF + the JSON serialization, with `n` the
UTF-8 byte length of the serialization — byte length, not code-point
count, as the two-byte single-character payload `"é"` shows. -/
theorem frame_shape (s : String) :
    startConversionFrame s =
      "Content-Length: " ++ toString s.utf8ByteSize ++ "\r\n\r\n" ++ s ∧
    startConversionFrame "é" = "Content-Length: 2\r\n\r\né" ∧
    ("é" : String).length = 1 := by
  refine ⟨?_, by decide, by decide⟩
  simp [startConversionFrame, String.join, contentLength, CRLF]
  rw [String.append_assoc _ "\r\n" "\r\n",
    show ("\r\n" ++ "\r\n" : String) = "\r\n\r\n" from rfl]

theorem completionWordToComplete_empty (offsetAt : String → Position → Nat)
    (text : String) (position : Position) :
    completionWordToComplete offsetAt text position = "" := by
  simp [completionWordToComplete, documentGetText, jsOrEmpty]

/-- C5: the completion handler's filter text is the text of the zero-width
range from the request position to itself, hence always empty, so every
completion list it returns is marked incomplete — whatever prefix the user
typed. -/
theorem completion_always_incomplete (offsetAt : String → Position → Nat)
    (est : String → String)
    (autoComplete : BackendRequest × String → Option (List AutoCompleteResponse))
    (docs : List (String × TextDocument)) (uri : String) (position : Position)
    (doc : TextDocument) (responses : List AutoCompleteResponse)
    (hdoc : getOpenedDocument docs uri = some doc)
    (hresp : autoComplete (createRequest doc position false, "") = some responses) :
    completionWordToComplete offsetAt doc.text position = "" ∧
    completionHandler offsetAt est autoComplete docs uri position =
      .ok (.list (completionGrouping est responses) true) := by
  have hw := completionWordToComplete_empty offsetAt doc.text position
  refine ⟨hw, ?_⟩
  simp only [completionHandler, hdoc, hw, hresp]
  rfl

/-- Witness for C5 at a concrete opened document and backend reply. -/
theorem completion_always_incomplete_witness :
    completionWordToComplete (fun _ _ => 0) "class C" ⟨0, 3⟩ = "" ∧
    completionHandler (fun _ _ => 0) (fun d => d) (fun _ => some [])
        [("file:///a.cs", ⟨"file:///a.cs", "csharp", 1, "class C"⟩)]
        "file:///a.cs" ⟨0, 3⟩ =
      .ok (.list (completionGrouping (fun d => d) []) true) :=
  completion_always_incomplete (fun _ _ => 0) (fun d => d) (fun _ => some [])
    [("file:///a.cs", ⟨"file:///a.cs", "csharp", 1, "class C"⟩)]
    "file:///a.cs" ⟨0, 3⟩ ⟨"file:///a.cs", "csharp", 1, "class C"⟩ [] rfl rfl

/-- C10: a backend stdout line is dispatched to a packet handler exactly
when, after BOM removal, it starts with `{`, parses as JSON, and carries a
`Type` field equal to `"response"` or `"event"`; any other line leaves the
session state untouched. -/
theorem line_protocol_characterisation (jsonParse : String → Option Json)
    (lineString : String) :
    ((lineReceived jsonParse lineString).handled = true ↔
      ((removeBOMFromString lineString).data.head? = some '\x7b' ∧
        ∃ packet, jsonParse (removeBOMFromString lineString) = some packet ∧
          (packet.getField "Type" = some (.str "response") ∨
           packet.getField "Type" = some (.str "event")))) ∧
    (∀ (σ : Type) (onResponsePacket onEventPacket : Json → σ → σ) (s : σ),
      (lineReceived jsonParse lineString).handled = false →
        lineStep jsonParse onResponsePacket onEventPacket lineString s = s) := by
  constructor
  · unfold lineReceived
    set l := removeBOMFromString lineString with hl
    by_cases h1 : l.data.head? = some '\x7b' 
    · simp only [h1, not_true, if_false, ite_not]
      cases hp : jsonParse l with
      | none => simp [LineAction.handled, hp]
      | some packet =>
        cases hf : packet.getField "Type" with
        | none => simp [LineAction.handled, hf, hp]
        | some t =>
          simp only [hf]
          cases t with
          | str typeName =>
            by_cases hr : typeName = "response"
            · simp [hr, Json.truthy, LineAction.handled, hp, hf]
            · by_cases he : typeName = "event"
              · simp [hr, he, Json.truthy, LineAction.handled, hp, hf]
              · by_cases hv : typeName = ""
                · simp [hv, Json.truthy, LineAction.handled, hr, he, hp, hf]
                · simp [hv, hr, he, Json.truthy, LineAction.handled, hp, hf]
          | null => simp [Json.truthy, LineAction.handled, hp, hf]
          | bool b => cases b <;> simp [Json.truthy, LineAction.handled, hp, hf]
          | num n =>
            by_cases hn : n = 0 <;> simp [hn, Json.truthy, LineAction.handled, hp, hf]
          | arr xs => simp [Json.truthy, LineAction.handled, hp, hf]
          | obj fs => simp [Json.truthy, LineAction.handled, hp, hf]
    · simp [h1, LineAction.handled]
  · intro σ onResponsePacket onEventPacket s h
    unfold lineStep
    cases ha : lineReceived jsonParse lineString with
    | response packet => rw [ha] at h; simp [LineAction.handled] at h
    | event packet => rw [ha] at h; simp [LineAction.handled] at h
    | ignored => rfl

/-- Witness for C10: a well-formed response line is handled, a log-noise
line is not and leaves an example state unchanged. -/
theorem line_protocol_characterisation_witness :
    (lineReceived
        (fun s => if s = "\x7b\"Type\":\"response\"\x7d"
          then some (.obj [("Type", Json.str "response")]) else none)
        "\x7b\"Type\":\"response\"\x7d").handled = true ∧
    lineStep (fun _ => none) (fun _ n => n + 1) (fun _ n => n + 2) "[info] starting" 0 = 0 := by
  constructor
  · exact (line_protocol_characterisation _ _).1.mpr
      ⟨by decide, ⟨.obj [("Type", Json.str "response")], rfl, Or.inl rfl⟩⟩
  · exact (line_protocol_characterisation (fun _ => none) "[info] starting").2
      Nat (fun _ n => n + 1) (fun _ n => n + 2) 0 (by decide)

/-- C8: when the backend's definition reply carries no file path but a
`MetadataSource`, the handler only ever returns a location inside a
synthesized `omnisharp-metadata` virtual-document URI (never a filesystem
path), and returns an empty result when the follow-up metadata request
yields no source. -/
theorem metadata_definition_virtual
    (metadataLookup : MetadataRequest → Option MetadataResponse)
    (r : GoToDefinitionResponse) (ms : MetadataSource)
    (hfile : r.FileName = "") (hms : r.MetadataSource = some ms) :
    (∀ loc, definitionOnResult metadataLookup (some r) = .ok (some loc) →
        ∃ u : Uri, u.scheme = "omnisharp-metadata" ∧ loc.uri = u.toUriString) ∧
    (metadataLookup (metadataRequestOf ms) = none →
        definitionOnResult metadataLookup (some r) = .ok none) ∧
    (∀ mr, metadataLookup (metadataRequestOf ms) = some mr →
        mr.Source = "" ∨ mr.SourceName = "" →
        definitionOnResult metadataLookup (some r) = .ok none) := by
  cases hlk : metadataLookup (metadataRequestOf ms) with
  | none =>
    refine ⟨?_, fun _ => ?_, ?_⟩
    · intro loc hloc
      simp [definitionOnResult, hfile, hms, hlk] at hloc
    · simp [definitionOnResult, hfile, hms, hlk]
    · intro mr hmr
      cases hmr
  | some mr =>
    by_cases hbad : mr.Source = "" ∨ mr.SourceName = ""
    · refine ⟨?_, ?_, ?_⟩
      · intro loc hloc
        simp [definitionOnResult, hfile, hms, hlk, hbad] at hloc
      · intro h
        cases h
      · intro mr2 hmr2 hbad2
        simp [definitionOnResult, hfile, hms, hlk, hbad]
    · refine ⟨?_, ?_, ?_⟩
      · intro loc hloc
        simp [definitionOnResult, hfile, hms, hlk, hbad] at hloc
        subst hloc
        exact ⟨createUri mr.SourceName, rfl, rfl⟩
      · intro h
        cases h
      · intro mr2 hmr2 hbad2
        injection hmr2 with h2
        subst h2
        exact absurd hbad2 hbad

/-- Witness for C8 at a concrete metadata-only reply and metadata source. -/
theorem metadata_definition_virtual_witness :
    ∃ u : Uri, u.scheme = "omnisharp-metadata" ∧
      (Location.mk
        (createUri "$metadata$/Project/proj/Assembly/mscorlib/Symbol/System.String.cs").toUriString
        ⟨⟨3, 4⟩, ⟨3, 4⟩⟩).uri = u.toUriString :=
  (metadata_definition_virtual
    (fun _ => some ⟨"$metadata$/Project/proj/Assembly/mscorlib/Symbol/System.String.cs",
      "class String"⟩)
    ⟨"", some ⟨"mscorlib", "4.0.0.0", "proj", "C#", "System.String"⟩, 3, 4, none, none⟩
    ⟨"mscorlib", "4.0.0.0", "proj", "C#", "System.String"⟩ rfl rfl).1 _ rfl

theorem mem_firstLabels (l : String) (items : List CompletionItem) :
    l ∈ firstLabels items ↔ ∃ c ∈ items, c.label = l := by
  induction items with
  | nil => simp [firstLabels]
  | cons x xs ih =>
    simp only [firstLabels, List.mem_cons, List.mem_filter, ih]
    constructor
    · rintro (h | ⟨⟨c, hc, hcl⟩, hne⟩)
      · exact ⟨x, Or.inl rfl, h.symm⟩
      · exact ⟨c, Or.inr hc, hcl⟩
    · rintro ⟨c, hc | hc, hcl⟩
      · subst hc; exact Or.inl hcl.symm
      · by_cases hx : l = x.label
        · exact Or.inl hx
        · exact Or.inr ⟨⟨c, hc, hcl⟩, by simpa using hx⟩

theorem firstLabels_nodup (items : List CompletionItem) : (firstLabels items).Nodup := by
  induction items with
  | nil => simp [firstLabels]
  | cons x xs ih =>
    simp only [firstLabels]
    refine List.Nodup.cons ?_ (List.Nodup.filter _ ih)
    intro hmem
    have := (List.mem_filter.mp hmem).2
    simp at this

theorem firstLabels_append_single (xs : List CompletionItem) (c : CompletionItem) :
    firstLabels (xs ++ [c]) =
      if xs.any (fun d => d.label = c.label) then firstLabels xs
      else firstLabels xs ++ [c.label] := by
  induction xs with
  | nil => simp [firstLabels]
  | cons x xs ih =>
    rw [List.cons_append]
    show firstLabels (x :: (xs ++ [c])) = _
    simp only [firstLabels, ih, List.any_cons]
    by_cases hx : x.label = c.label
    · by_cases ha : (xs.any fun d => decide (d.label = c.label)) = true
      · simp [hx, ha]
      · simp [hx, ha, List.filter_append]
    · have hx2 : ¬ c.label = x.label := fun h => hx h.symm
      by_cases ha : (xs.any fun d => decide (d.label = c.label)) = true
      · simp [hx, ha]
      · simp [hx, ha, List.filter_append, hx2]

theorem addCompletion_all_new (gs : List (String × CompletionGroup)) (c : CompletionItem)
    (h : ∀ e ∈ gs, e.1 ≠ c.label) :
    addCompletion gs c = gs ++ [(c.label, ⟨[c], c.preselect⟩)] := by
  induction gs with
  | nil => rfl
  | cons e gs ih =>
    obtain ⟨l, g⟩ := e
    have hl : l ≠ c.label := h (l, g) (List.mem_cons_self _ _)
    simp only [addCompletion, if_neg hl, List.cons_append]
    rw [ih (fun e he => h e (List.mem_cons_of_mem _ he))]

theorem addCompletion_map_update (L : List String) (g g2 : String → CompletionGroup)
    (c : CompletionItem) (hnd : L.Nodup) (hmem : c.label ∈ L)
    (hupd : g2 c.label = ⟨(g c.label).items ++ [c], (g c.label).preselect || c.preselect⟩)
    (hsame : ∀ l ∈ L, l ≠ c.label → g2 l = g l) :
    addCompletion (L.map (fun l => (l, g l))) c = L.map (fun l => (l, g2 l)) := by
  induction L with
  | nil => cases hmem
  | cons l0 L ih =>
    simp only [List.map_cons, addCompletion]
    by_cases h0 : l0 = c.label
    · subst h0
      rw [if_pos rfl]
      have hnotin := (List.nodup_cons.mp hnd).1
      congr 1
      · rw [hupd]
      · apply List.map_congr_left
        intro l hl
        have : l ≠ c.label := fun hh => hnotin (hh ▸ hl)
        rw [hsame l (List.mem_cons_of_mem _ hl) this]
    · rw [if_neg (fun hh => h0 hh)]
      have hmem2 : c.label ∈ L := by
        cases List.mem_cons.mp hmem with
        | inl hh => exact absurd hh.symm h0
        | inr hh => exact hh
      rw [hsame l0 (List.mem_cons_self _ _) h0,
        ih (List.nodup_cons.mp hnd).2 hmem2
          (fun l hl hlne => hsame l (List.mem_cons_of_mem _ hl) hlne)]

theorem buildCompletions_eq_canonical (items : List CompletionItem) :
    buildCompletions items = canonicalGroups items := by
  induction items using List.reverseRecOn with
  | nil => rfl
  | append_singleton xs c ih =>
    have hstep : buildCompletions (xs ++ [c]) = addCompletion (buildCompletions xs) c := by
      simp [buildCompletions, List.foldl_append]
    rw [hstep, ih]
    by_cases ha : (xs.any fun d => decide (d.label = c.label)) = true
    · have hmem : c.label ∈ firstLabels xs := by
        rw [mem_firstLabels]
        obtain ⟨d, hd, hdl⟩ := List.any_eq_true.mp ha
        exact ⟨d, hd, of_decide_eq_true hdl⟩
      unfold canonicalGroups
      rw [firstLabels_append_single, if_pos ha]
      apply addCompletion_map_update _ _ _ _ (firstLabels_nodup xs) hmem
      · simp [List.filter_append, List.any_append]
      · intro l hl hlne
        have : ¬ (c.label = l) := fun hh => hlne hh.symm
        simp [List.filter_append, this]
    · unfold canonicalGroups
      rw [firstLabels_append_single, if_neg ha, List.map_append]
      rw [addCompletion_all_new]
      · congr 1
        · apply List.map_congr_left
          intro l hl
          have hlne : ¬ (c.label = l) := by
            intro hh
            obtain ⟨d, hd, hdl⟩ := (mem_firstLabels l xs).mp hl
            exact ha (List.any_eq_true.mpr ⟨d, hd, by simp [hdl, hh]⟩)
          simp [List.filter_append, hlne]
        · have hnone : xs.filter (fun d => d.label = c.label) = [] := by
            rw [List.filter_eq_nil_iff]
            intro d hd hdl
            exact ha (List.any_eq_true.mpr ⟨d, hd, hdl⟩)
          simp only [List.map_cons, List.map_nil, List.filter_append, hnone, List.nil_append]
          simp
      · intro e he
        obtain ⟨l, hl, rfl⟩ := List.mem_map.mp he
        intro hh
        have hh2 : l = c.label := hh
        obtain ⟨d, hd, hdl⟩ := (mem_firstLabels _ xs).mp hl
        exact ha (List.any_eq_true.mpr ⟨d, hd, decide_eq_true (hdl.trans hh2)⟩)

theorem groupingItems_eq (items : List CompletionItem) :
    (buildCompletions items).map (fun entry => selectSuggestion entry.2) =
      (firstLabels items).map
        (fun l => groupedItemSpec (items.filter (fun c => c.label = l))) := by
  rw [buildCompletions_eq_canonical]
  unfold canonicalGroups
  rw [List.map_map]
  apply List.map_congr_left
  intro l hl
  obtain ⟨d, hd, hdl⟩ := (mem_firstLabels l _).mp hl
  have hdmem : d ∈ items.filter (fun c => c.label = l) :=
    List.mem_filter.mpr ⟨hd, decide_eq_true hdl⟩
  simp only [Function.comp_apply]
  cases hf : items.filter (fun c => c.label = l) with
  | nil => rw [hf] at hdmem; cases hdmem
  | cons s rest =>
    simp only [selectSuggestion, groupedItemSpec]
    by_cases hr : rest = []
    · subst hr; simp
    · have hrl : ¬ rest.length = 0 := by simpa [List.length_eq_zero] using hr
      simp [hr, hrl, List.any_cons]

/-- C4: the translated completion result is exactly one item per distinct
label, in first-occurrence order: a label with one candidate stands alone
and unchanged, a label with `n + 1 > 1` candidates collapses to its first
candidate with `"(+ n overload(s))"` suffixed to its detail and the
group's disjoined preselect flag; in particular the raw candidates
foo:int, foo:string, bar:void yield exactly `foo` annotated and `bar`
unannotated. -/
theorem completion_grouping_matches_spec :
    (∀ (est : String → String) (responses : List AutoCompleteResponse),
      completionGrouping est responses = completionGroupingSpec est responses) ∧
    completionGrouping (fun d => d)
      [⟨"foo", "int", "", "", "", false, false⟩,
       ⟨"foo", "string", "", "", "", false, false⟩,
       ⟨"bar", "void", "", "", "", false, false⟩] =
      [⟨"foo", "int (+ 1 overload(s))", "", 10, "foo", allCommitCharacters, false⟩,
       ⟨"bar", "void", "", 10, "bar", allCommitCharacters, false⟩] := by
  constructor
  · intro est responses
    exact groupingItems_eq (responses.map (toCompletionItem est))
  · decide

end WebIDE
